import Mathlib

/-!
Shallow embedding of the `bpm` incremental asset pipeline
(`src/config.rs`, `src/processing.rs`, `src/raw.rs`, `src/mesh.rs`).

Strings (path components, extensions, configured extension lists) are
modeled as lists of Unicode code points (`List Nat`); filesystem paths as
lists of components.  Filesystem effects (`fs::metadata`, `fs::copy`,
`fs::read`, `fs::write`) and the external gltf transcode capability are
modeled as explicit oracles passed to the functions that perform them, so
every definition is a pure function of its inputs exactly mirroring the
control flow of the Rust source.
-/

/-- A string: its list of Unicode code points. -/
abbrev Str := List Nat

/-- Conversion from Lean string literals into the code-point model. -/
def str (s : String) : Str := s.toList.map Char.toNat

/-- ASCII lowercasing of a single code point, as Rust
`u8::to_ascii_lowercase` (used by `OsStr::to_ascii_lowercase` and
`str::to_ascii_lowercase`): code points 65–90 (`A`–`Z`) are shifted by 32,
everything else is unchanged. -/
def asciiLower (c : Nat) : Nat :=
  if 65 ≤ c ∧ c ≤ 90 then c + 32 else c

/-- ASCII lowercasing of a whole string. -/
def lowerStr (s : Str) : Str := s.map asciiLower

/-- A filesystem path: its list of components. -/
abbrev FsPath := List Str

/-- The code point of the extension separator. -/
def dotCode : Nat := 46

/-- Rust `Path::extension` restricted to a file name: the portion after
the final dot, unless there is no dot or the only dot is the leading
character. -/
def fileExtension (name : Str) : Option Str :=
  let revName := name.reverse
  let extRev := revName.takeWhile (fun c => c ≠ dotCode)
  match revName.dropWhile (fun c => c ≠ dotCode) with
  | [] => none
  | _ :: stemRev => if stemRev.isEmpty then none else some extRev.reverse

/-- Rust `PathBuf::set_extension` restricted to a file name, for a
non-empty new extension: the current extension (if any) is dropped and the
new one is appended after a dot. -/
def setFileExtension (name : Str) (newExt : Str) : Str :=
  let stem :=
    match fileExtension name with
    | none => name
    | some e => name.take (name.length - e.length - 1)
  stem ++ [dotCode] ++ newExt

/-- Rust `Path::extension` on a whole path: the extension of its final
component. -/
def fsExtension (p : FsPath) : Option Str :=
  match p.getLast? with
  | none => none
  | some name => fileExtension name

/-- Rust `PathBuf::set_extension` on a whole path: rewrites the final
component; a path without components is returned unchanged. -/
def setFsExtension (p : FsPath) (newExt : Str) : FsPath :=
  match p.getLast? with
  | none => p
  | some name => p.dropLast ++ [setFileExtension name newExt]

/-- Rust `Path::strip_prefix`: removes a leading run of components,
failing when the path does not start with them. -/
def stripPathRoot : FsPath → FsPath → Option FsPath
  | p, [] => some p
  | [], _ :: _ => none
  | c :: p, r :: root => if c = r then stripPathRoot p root else none

/-- The source root `assets-dev`. -/
def assetsDevDir : Str := str "assets-dev"

/-- The destination root `assets`. -/
def assetsDir : Str := str "assets"

/-- The well-known configuration file path `assets-dev/config.toml`
(`Path::new("assets-dev").join("config.toml")`). -/
def configToml : FsPath := [assetsDevDir, str "config.toml"]

/-! ## Configuration (`src/config.rs`) -/

/-- Rust `enum MeshStorage`. -/
inductive MeshStorage
  | Glb
  | Gltf
deriving DecidableEq

/-- Rust `enum TextureFilter`. -/
inductive TextureFilter
  | Nearest
  | Linear
deriving DecidableEq

/-- Rust `struct Extensions`: the per-kind configured extension lists. -/
structure Extensions where
  raw : List Str
  texture : List Str
  mesh : List Str
  audio : List Str
deriving DecidableEq

/-- Rust `struct MeshConfigs`. -/
structure MeshConfigs where
  use_meshlets : Bool
  storage : MeshStorage
deriving DecidableEq

/-- Rust `struct TextureConfigs`. -/
structure TextureConfigs where
  filter : TextureFilter
deriving DecidableEq

/-- Rust `struct Config`. The poll interval is an `f64` number of seconds in
the source; it is carried here as a rational and never inspected by the
scan logic. -/
structure Config where
  file_watching_rate_seconds : Rat
  extensions : Extensions
  meshes : MeshConfigs
  textures : TextureConfigs
deriving DecidableEq

/-- Rust `impl Default for Config`. -/
def Config.default : Config where
  file_watching_rate_seconds := 3 / 10
  extensions :=
    { raw := []
      texture := [str "jpg", str "png"]
      mesh := [str "glb", str "gltf"]
      audio := [str "ogg", str "wav"] }
  meshes := { use_meshlets := false, storage := MeshStorage.Glb }
  textures := { filter := TextureFilter.Linear }

/-! ## Staleness oracle (`src/processing.rs`, `is_stale`) -/

/-- The result of a successful `fs::metadata` call: the modification and
access timestamps, each of which the platform may fail to provide.
Timestamps are modeled as naturals. -/
structure FileMeta where
  modified : Option Nat
  accessed : Option Nat
deriving DecidableEq

/-- The comparison time of a metadata record: its modification time,
falling back to its access time (the nested `match` in `is_stale`). -/
def compTime (m : FileMeta) : Option Nat :=
  match m.modified with
  | some time => some time
  | none =>
    match m.accessed with
    | some time => some time
    | none => none

/-- Rust `is_stale(source, dest)`.  `metaOf` is the `fs::metadata` oracle:
`none` models an `Err` result.  Unreadable metadata on either side is
stale; a missing comparison time on either side is not stale; otherwise
stale iff the source comparison time is strictly greater. -/
def is_stale (metaOf : FsPath → Option FileMeta) (source dest : FsPath) : Bool :=
  match metaOf source with
  | none => true
  | some meta_source =>
    match metaOf dest with
    | none => true
    | some meta_dest =>
      let time_source := compTime meta_source
      let time_dest := compTime meta_dest
      match time_source, time_dest with
      | some ts, some td => decide (td < ts)
      | _, _ => false

/-! ## Processor kinds (`src/raw.rs`, `src/mesh.rs`) -/

/-- The processor kind attached to a queued work item (`FileRaw` or
`FileMesh` marker components in the source). -/
inductive Kind
  | raw
  | mesh
deriving DecidableEq

/-- Rust `ProcessingRaw::get_destination`: replace the `assets-dev` root by
`assets`, extension unchanged. -/
def ProcessingRaw.get_destination (source : FsPath) : Option FsPath :=
  match stripPathRoot source [assetsDevDir] with
  | none => none
  | some base => some ([assetsDir] ++ base)

/-- Rust `ProcessingRaw::matches`: membership of the (already lowercased)
extension in the configured raw list. -/
def ProcessingRaw.matches (ext : Str) (config : Config) : Bool :=
  let valid_ext := config.extensions.raw
  valid_ext.contains ext

/-- Rust `ProcessingMesh::get_destination`: replace the `assets-dev` root by
`assets` and force the extension to `glb`. -/
def ProcessingMesh.get_destination (source : FsPath) : Option FsPath :=
  match stripPathRoot source [assetsDevDir] with
  | none => none
  | some base => some (setFsExtension ([assetsDir] ++ base) (str "glb"))

/-- Rust `ProcessingMesh::matches`: membership of the (already lowercased)
extension in the configured mesh list. -/
def ProcessingMesh.matches (ext : Str) (config : Config) : Bool :=
  config.extensions.mesh.contains ext

/-- Rust `AssetProcessing::get_destination`: the destination used by the scan
when queueing any file.  The source delegates only to
`ProcessingRaw::get_destination` and returns `None` otherwise. -/
def AssetProcessing.get_destination (source : FsPath) : Option FsPath :=
  match ProcessingRaw.get_destination source with
  | some path => some path
  | none => none

/-! ## Work items and queueing (`src/processing.rs`) -/

/-- Rust `struct FileQueuedForProcessing`: a work item.  The enqueue `Instant`
is modeled as a natural. -/
structure FileQueuedForProcessing where
  source : FsPath
  dest : FsPath
  queue_time : Nat
deriving DecidableEq

/-- Rust `queue_file`: classify a stale file by its lowercased extension and
return the kind tag it is spawned with (`None` when no extension or no
kind matches, in which case the caller records it as unhandled). -/
def queue_file (config : Config) (source dest : FsPath) : Option Kind :=
  match fsExtension source with
  | none => none
  | some file_ext_os =>
    let file_ext := lowerStr file_ext_os
    if ProcessingRaw.matches file_ext config then some Kind.raw
    else if ProcessingMesh.matches file_ext config then some Kind.mesh
    else none

/-! ## The scan tick (`check_for_stale_files`) -/

/-- One entry yielded by the `WalkDir` traversal of `assets-dev`. -/
structure Entry where
  path : FsPath
  isDir : Bool
deriving DecidableEq

/-- What `check_for_stale_files` does with a single walked entry. -/
inductive EntryAction
  | skip
  | mirrorDir (dest : FsPath)
  | queueItem (kind : Kind) (source dest : FsPath)
  | unhandledFile (source : FsPath)
deriving DecidableEq

/-- The body of the per-entry loop of `check_for_stale_files`: skip the
configuration file, strip the `assets-dev` root (skipping on failure),
compute the destination (skipping when there is none), skip sources
already in flight, mirror directories, and queue stale files — recording
them as unhandled when no kind claims the extension. -/
def processEntry (config : Config) (metaOf : FsPath → Option FileMeta)
    (inFlight : List FsPath) (entry : Entry) : EntryAction :=
  if entry.path = configToml then EntryAction.skip
  else
    match stripPathRoot entry.path [assetsDevDir] with
    | none => EntryAction.skip
    | some entry_path =>
      match AssetProcessing.get_destination ([assetsDevDir] ++ entry_path) with
      | none => EntryAction.skip
      | some dest_path =>
        if [assetsDevDir] ++ entry_path ∈ inFlight then EntryAction.skip
        else if entry.isDir then EntryAction.mirrorDir dest_path
        else if is_stale metaOf ([assetsDevDir] ++ entry_path) dest_path then
          match queue_file config ([assetsDevDir] ++ entry_path) dest_path with
          | some kind => EntryAction.queueItem kind ([assetsDevDir] ++ entry_path) dest_path
          | none => EntryAction.unhandledFile ([assetsDevDir] ++ entry_path)
        else EntryAction.skip

/-- The observable result of one finished scan tick: the newly spawned
work items (kind tag plus the source and destination stored in the
`FileQueuedForProcessing`), the unhandled-file report, and the mirrored
directories. -/
structure TickResult where
  queued : List (Kind × FsPath × FsPath)
  unhandled : List FsPath
  mirrored : List FsPath
deriving DecidableEq

/-- Rust `check_for_stale_files` after its repeating timer has fired:
`inFlight` is the snapshot of source paths of currently queued items
(`currently_queued_paths`), `entries` the walked directory entries in
traversal order, `metaOf` the `fs::metadata` oracle. -/
def check_for_stale_files (config : Config) (metaOf : FsPath → Option FileMeta)
    (inFlight : List FsPath) : List Entry → TickResult
  | [] => { queued := [], unhandled := [], mirrored := [] }
  | entry :: rest =>
    let r := check_for_stale_files config metaOf inFlight rest
    match processEntry config metaOf inFlight entry with
    | EntryAction.skip => r
    | EntryAction.mirrorDir d => { r with mirrored := d :: r.mirrored }
    | EntryAction.queueItem k s d => { r with queued := (k, s, d) :: r.queued }
    | EntryAction.unhandledFile s => { r with unhandled := s :: r.unhandled }

/-- The source paths of the work items newly spawned by a tick. -/
def TickResult.newSources (r : TickResult) : List FsPath :=
  r.queued.map (fun item => item.2.1)

/-! ## Execution units (`ProcessingRaw::system`, `ProcessingMesh::system`) -/

/-- The filesystem operation used by the raw passthrough system:
`fs::copy`, returning the number of bytes copied or an error. -/
structure RawFsOps where
  copy : FsPath → FsPath → Except String Nat

/-- What happens to one raw work item when its system runs: it is
despawned (retired) after a successful copy, or the whole process panics
on a copy error. -/
inductive RawOutcome
  | retired (destWritten : Bool)
  | panicked
deriving DecidableEq

/-- The per-item body of `ProcessingRaw::system`. -/
def ProcessingRaw.runItem (fsOps : RawFsOps) (entry : FileQueuedForProcessing) :
    RawOutcome :=
  match fsOps.copy entry.source entry.dest with
  | Except.ok _ => RawOutcome.retired true
  | Except.error _ => RawOutcome.panicked

/-- The opaque scene-graph document produced by the external gltf
transcode capability. -/
structure GltfDocument where
  id : Nat
deriving DecidableEq

/-- The external operations used by the mesh system: `fs::read` (with
`unwrap_or_default`, hence total), `GlbImport` (whose blocked-on future
may yield nothing, modeled as `none`), `GlbExport`, and `fs::write`. -/
structure MeshFsOps where
  readBytes : FsPath → List Nat
  glbImport : List Nat → Option (Except String GltfDocument)
  glbExport : GltfDocument → Except String (List Nat)
  writeBytes : FsPath → List Nat → Except String Unit

/-- The three recognized mesh container formats (`enum SceneExt`). -/
inductive SceneExt
  | Glb
  | Gltf
  | Glxf
deriving DecidableEq

/-- The result of `process_gltf_format`: either the function returns a
boolean (paired here with whether the destination write succeeded — the
source discards the `fs::write` result), or it hits a `todo!()` and the
process panics. -/
inductive GltfProcessResult
  | returned (isProcessed : Bool) (destWritten : Bool)
  | panickedTodo
deriving DecidableEq

/-- Rust `process_gltf_format`.  For `Glb`: a failed or absent import returns
`false`; after a successful import the document is re-exported and
written, with export errors skipped silently and the write result
discarded, returning `true` regardless.  The `Gltf` and `Glxf` arms are
`todo!()`. -/
def process_gltf_format (fsOps : MeshFsOps) (source_file dest_file : FsPath) :
    SceneExt → GltfProcessResult
  | SceneExt.Glb =>
    match fsOps.glbImport (fsOps.readBytes source_file) with
    | none => GltfProcessResult.returned false false
    | some (Except.error _) => GltfProcessResult.returned false false
    | some (Except.ok doc) =>
      match fsOps.glbExport doc with
      | Except.ok formatted =>
        match fsOps.writeBytes dest_file formatted with
        | Except.ok _ => GltfProcessResult.returned true true
        | Except.error _ => GltfProcessResult.returned true false
      | Except.error _ => GltfProcessResult.returned true false
  | SceneExt.Gltf => GltfProcessResult.panickedTodo
  | SceneExt.Glxf => GltfProcessResult.panickedTodo

/-- What happens to one mesh work item when its system runs. -/
inductive MeshOutcome
  | retired (destWritten : Bool)
  | keptInFlight
  | panickedBadFormat
  | panickedTodo
deriving DecidableEq

/-- The per-item body of `ProcessingMesh::system`: dispatch on the
lowercased source extension (an extensionless source is skipped by
`continue`, leaving the item in flight); when the dispatch returns
`false` the system panics, otherwise the entity is despawned. -/
def ProcessingMesh.runItem (fsOps : MeshFsOps) (entry : FileQueuedForProcessing) :
    MeshOutcome :=
  match fsExtension entry.source with
  | none => MeshOutcome.keptInFlight
  | some os_ext =>
    let ext := lowerStr os_ext
    let is_processed :=
      if ext = str "glb" then
        process_gltf_format fsOps entry.source entry.dest SceneExt.Glb
      else if ext = str "gltf" then
        process_gltf_format fsOps entry.source entry.dest SceneExt.Gltf
      else if ext = str "glxf" then
        process_gltf_format fsOps entry.source entry.dest SceneExt.Glxf
      else GltfProcessResult.returned false false
    match is_processed with
    | GltfProcessResult.panickedTodo => MeshOutcome.panickedTodo
    | GltfProcessResult.returned false _ => MeshOutcome.panickedBadFormat
    | GltfProcessResult.returned true w => MeshOutcome.retired w

/-! ## Basic sanity checks of the embedding -/

example : lowerStr (str "A.PNG") = str "a.png" := by decide
example : fileExtension (str "a.txt") = some (str "txt") := by decide
example : fileExtension (str "noext") = none := by decide
example : setFileExtension (str "model.gltf") (str "glb") = str "model.glb" := by decide
example : ProcessingRaw.get_destination [assetsDevDir, str "a.png"]
    = some [assetsDir, str "a.png"] := by decide
example : ProcessingMesh.get_destination [assetsDevDir, str "model.gltf"]
    = some [assetsDir, str "model.glb"] := by decide
example : queue_file Config.default [assetsDevDir, str "model.glb"]
    [assetsDir, str "model.glb"] = some Kind.mesh := by decide

/-! ## Helper lemmas about the scan -/

theorem stripPathRoot_sound :
    ∀ (p root b : FsPath), stripPathRoot p root = some b → p = root ++ b := by
  intro p root
  induction root generalizing p with
  | nil =>
    intro b h
    simpa [stripPathRoot, eq_comm] using h.symm
  | cons r root ih =>
    intro b h
    cases p with
    | nil => simp [stripPathRoot] at h
    | cons c p =>
      by_cases hc : c = r
      · rw [stripPathRoot, if_pos hc] at h
        subst hc
        simpa using ih p b h
      · rw [stripPathRoot, if_neg hc] at h
        cases h

theorem processEntry_queueItem_inv (config : Config) (metaOf : FsPath → Option FileMeta)
    (inFlight : List FsPath) (entry : Entry) (k : Kind) (s d : FsPath)
    (h : processEntry config metaOf inFlight entry = EntryAction.queueItem k s d) :
    s = entry.path ∧ s ∉ inFlight ∧ s ≠ configToml ∧ entry.isDir = false
      ∧ AssetProcessing.get_destination s = some d
      ∧ is_stale metaOf s d = true
      ∧ queue_file config s d = some k := by
  unfold processEntry at h
  split at h
  · cases h
  · rename_i hne
    split at h
    · cases h
    · rename_i entry_path hstrip
      have hsrc : entry.path = [assetsDevDir] ++ entry_path :=
        stripPathRoot_sound entry.path [assetsDevDir] entry_path hstrip
      split at h
      · cases h
      · rename_i dest_path hdest
        split at h
        · cases h
        · rename_i hnin
          split at h
          · cases h
          · rename_i hdir
            split at h
            · rename_i hstale
              split at h
              · rename_i kind hq
                cases h
                refine ⟨hsrc.symm, hnin, ?_, ?_, hdest, hstale, hq⟩
                · rw [← hsrc]; exact hne
                · simpa using hdir
              · cases h
            · cases h

theorem processEntry_unhandled_inv (config : Config) (metaOf : FsPath → Option FileMeta)
    (inFlight : List FsPath) (entry : Entry) (s : FsPath)
    (h : processEntry config metaOf inFlight entry = EntryAction.unhandledFile s) :
    s = entry.path ∧ s ≠ configToml ∧ queue_file config s ([assetsDir] ++ s.tail) = none := by
  unfold processEntry at h
  split at h
  · cases h
  · rename_i hne
    split at h
    · cases h
    · rename_i entry_path hstrip
      have hsrc : entry.path = [assetsDevDir] ++ entry_path :=
        stripPathRoot_sound entry.path [assetsDevDir] entry_path hstrip
      split at h
      · cases h
      · rename_i dest_path hdest
        split at h
        · cases h
        · split at h
          · cases h
          · split at h
            · rename_i hstale
              split at h
              · cases h
              · rename_i hq
                cases h
                refine ⟨hsrc.symm, ?_, ?_⟩
                · rw [← hsrc]; exact hne
                · simpa using hq
            · cases h

theorem check_mem_queued (config : Config) (metaOf : FsPath → Option FileMeta)
    (inFlight : List FsPath) :
    ∀ (entries : List Entry) (k : Kind) (s d : FsPath),
      (k, s, d) ∈ (check_for_stale_files config metaOf inFlight entries).queued →
      ∃ e ∈ entries, processEntry config metaOf inFlight e = EntryAction.queueItem k s d := by
  intro entries
  induction entries with
  | nil =>
    intro k s d h
    simp [check_for_stale_files] at h
  | cons e rest ih =>
    intro k s d h
    simp only [check_for_stale_files] at h
    cases hpe : processEntry config metaOf inFlight e <;> simp only [hpe] at h
    · obtain ⟨e', he', hp⟩ := ih k s d h
      exact ⟨e', List.mem_cons_of_mem _ he', hp⟩
    · obtain ⟨e', he', hp⟩ := ih k s d h
      exact ⟨e', List.mem_cons_of_mem _ he', hp⟩
    · rcases List.mem_cons.mp h with heq | hmem
      · cases heq
        exact ⟨e, List.mem_cons_self e rest, hpe⟩
      · obtain ⟨e', he', hp⟩ := ih k s d hmem
        exact ⟨e', List.mem_cons_of_mem _ he', hp⟩
    · obtain ⟨e', he', hp⟩ := ih k s d h
      exact ⟨e', List.mem_cons_of_mem _ he', hp⟩

theorem check_mem_unhandled (config : Config) (metaOf : FsPath → Option FileMeta)
    (inFlight : List FsPath) :
    ∀ (entries : List Entry) (s : FsPath),
      s ∈ (check_for_stale_files config metaOf inFlight entries).unhandled →
      ∃ e ∈ entries, processEntry config metaOf inFlight e = EntryAction.unhandledFile s := by
  intro entries
  induction entries with
  | nil =>
    intro s h
    simp [check_for_stale_files] at h
  | cons e rest ih =>
    intro s h
    simp only [check_for_stale_files] at h
    cases hpe : processEntry config metaOf inFlight e <;> simp only [hpe] at h
    · obtain ⟨e', he', hp⟩ := ih s h
      exact ⟨e', List.mem_cons_of_mem _ he', hp⟩
    · obtain ⟨e', he', hp⟩ := ih s h
      exact ⟨e', List.mem_cons_of_mem _ he', hp⟩
    · obtain ⟨e', he', hp⟩ := ih s h
      exact ⟨e', List.mem_cons_of_mem _ he', hp⟩
    · rcases List.mem_cons.mp h with heq | hmem
      · cases heq
        exact ⟨e, List.mem_cons_self e rest, hpe⟩
      · obtain ⟨e', he', hp⟩ := ih s hmem
        exact ⟨e', List.mem_cons_of_mem _ he', hp⟩

theorem check_mem_newSources (config : Config) (metaOf : FsPath → Option FileMeta)
    (inFlight : List FsPath) (entries : List Entry) (s : FsPath)
    (h : s ∈ (check_for_stale_files config metaOf inFlight entries).newSources) :
    ∃ e ∈ entries, ∃ k d,
      processEntry config metaOf inFlight e = EntryAction.queueItem k s d := by
  obtain ⟨⟨k, s', d⟩, hmem, hs⟩ := List.mem_map.mp h
  cases hs
  obtain ⟨e, he, hp⟩ := check_mem_queued config metaOf inFlight entries k s' d hmem
  exact ⟨e, he, k, d, hp⟩

/-! ## C1: staleness correctness -/

/-- C1: for every pair of source and destination paths, `is_stale` is true
when the destination metadata cannot be read, true when the source
metadata cannot be read, false when neither readable side yields a
modification or access timestamp, and otherwise true exactly when the
source comparison time is strictly greater than the destination's; in
particular equal comparison times yield false. -/
theorem is_stale_characterization (metaOf : FsPath → Option FileMeta)
    (source dest : FsPath) :
    (metaOf dest = none → is_stale metaOf source dest = true)
    ∧ (metaOf source = none → is_stale metaOf source dest = true)
    ∧ (∀ ms md, metaOf source = some ms → metaOf dest = some md →
        (is_stale metaOf source dest = true ↔
          ∃ ts td, compTime ms = some ts ∧ compTime md = some td ∧ td < ts))
    ∧ (∀ ms md, metaOf source = some ms → metaOf dest = some md →
        compTime ms = none → compTime md = none →
        is_stale metaOf source dest = false)
    ∧ (∀ ms md t, metaOf source = some ms → metaOf dest = some md →
        compTime ms = some t → compTime md = some t →
        is_stale metaOf source dest = false) := by
  unfold is_stale
  cases hs : metaOf source with
  | none => simp
  | some ms =>
    cases hd : metaOf dest with
    | none => simp
    | some md =>
      simp only [Option.some.injEq, forall_eq']
      refine ⟨by simp, by simp, ?_, ?_, ?_⟩
      · intro ms' md' hms hmd
        cases hms
        cases hmd
        cases hcs : compTime ms with
        | none =>
          cases hcd : compTime md with
          | none => simp
          | some td => simp
        | some ts =>
          cases hcd : compTime md with
          | none => simp
          | some td => simp
      · intro ms' md' hms hmd hcs hcd
        cases hms
        cases hmd
        rw [hcs, hcd]
      · intro ms' md' t hms hmd hcs hcd
        cases hms
        cases hmd
        rw [hcs, hcd]
        simp

/-- A concrete metadata oracle: source and destination both readable with
equal modification times. -/
def equalTimesMeta : FsPath → Option FileMeta := fun p =>
  if p = [assetsDevDir, str "a.png"] then some { modified := some 7, accessed := none }
  else if p = [assetsDir, str "a.png"] then some { modified := some 7, accessed := none }
  else none

theorem is_stale_characterization_witness :
    is_stale equalTimesMeta [assetsDevDir, str "a.png"] [assetsDir, str "a.png"] = false :=
  (is_stale_characterization equalTimesMeta
      [assetsDevDir, str "a.png"] [assetsDir, str "a.png"]).2.2.2.2
    { modified := some 7, accessed := none } { modified := some 7, accessed := none } 7
    (by decide) (by decide) (by decide) (by decide)

/-! ## C2: at most one in-flight work item per source path -/

/-- C2: a scan tick never spawns a work item for a source path that is
already in flight, and never spawns two items for the same path within
one walk (the walk yields distinct paths), so after the tick the combined
in-flight collection still holds at most one item per source path. -/
theorem at_most_one_in_flight (config : Config) (metaOf : FsPath → Option FileMeta)
    (inFlight : List FsPath) (entries : List Entry)
    (h1 : inFlight.Nodup) (h2 : (entries.map Entry.path).Nodup) :
    ((check_for_stale_files config metaOf inFlight entries).newSources
      ++ inFlight).Nodup := by
  induction entries with
  | nil => simpa [check_for_stale_files, TickResult.newSources]
  | cons e rest ih =>
    simp only [List.map_cons, List.nodup_cons] at h2
    obtain ⟨hhead, htail⟩ := h2
    simp only [check_for_stale_files]
    cases hpe : processEntry config metaOf inFlight e <;>
      simp only [hpe, TickResult.newSources, List.map_cons, List.cons_append]
    · exact ih htail
    · exact ih htail
    · rename_i k s d
      rw [List.nodup_cons]
      obtain ⟨hsrc, hnin, _⟩ := processEntry_queueItem_inv config metaOf inFlight e k s d hpe
      constructor
      · intro hmem
        rcases List.mem_append.mp hmem with hmem1 | hmem2
        · obtain ⟨e', he', k', d', hp'⟩ :=
            check_mem_newSources config metaOf inFlight rest s hmem1
          have hsrc' := (processEntry_queueItem_inv config metaOf inFlight e' k' s d' hp').1
          exact hhead (hsrc ▸ hsrc' ▸ List.mem_map_of_mem Entry.path he')
        · exact hnin hmem2
      · exact ih htail
    · exact ih htail

/-- A concrete scenario for C2: one item already in flight, the same file
plus a fresh one walked again while it executes. -/
def inFlightDemo : List FsPath := [[assetsDevDir, str "a.png"]]

def entriesDemo : List Entry :=
  [{ path := [assetsDevDir, str "a.png"], isDir := false },
   { path := [assetsDevDir, str "b.png"], isDir := false }]

def pngRawConfig : Config :=
  { file_watching_rate_seconds := 3 / 10
    extensions :=
      { raw := [str "png"], texture := [], mesh := [str "glb", str "gltf"], audio := [] }
    meshes := { use_meshlets := false, storage := MeshStorage.Glb }
    textures := { filter := TextureFilter.Linear } }

/-- A metadata oracle making every source stale (destinations missing). -/
def sourceOnlyMeta : FsPath → Option FileMeta := fun p =>
  match p with
  | [r, _] => if r = assetsDevDir then some { modified := some 5, accessed := none } else none
  | _ => none

theorem at_most_one_in_flight_witness :
    ((check_for_stale_files pngRawConfig sourceOnlyMeta inFlightDemo
        entriesDemo).newSources ++ inFlightDemo).Nodup :=
  at_most_one_in_flight pngRawConfig sourceOnlyMeta inFlightDemo entriesDemo
    (by decide) (by decide)

/-! ## C3: destination stored for queued mesh items -/

/-- A metadata oracle for which `assets-dev/model.gltf` is stale (its
destination does not exist). -/
def gltfStaleMeta : FsPath → Option FileMeta := fun p =>
  if p = [assetsDevDir, str "model.gltf"] then some { modified := some 5, accessed := none }
  else none

/-- C3 evaluation at the failing input: a stale `assets-dev/model.gltf`
under the default configuration is queued for the mesh kind with stored
destination `assets/model.gltf` — the raw mapping, extension unchanged —
because `AssetProcessing::get_destination` consults only
`ProcessingRaw::get_destination`, while the (never called)
`ProcessingMesh::get_destination` would have produced `assets/model.glb`
as the claim states. -/
theorem mesh_dest_keeps_input_extension :
    processEntry Config.default gltfStaleMeta []
        { path := [assetsDevDir, str "model.gltf"], isDir := false }
      = EntryAction.queueItem Kind.mesh [assetsDevDir, str "model.gltf"]
          [assetsDir, str "model.gltf"]
    ∧ ProcessingMesh.get_destination [assetsDevDir, str "model.gltf"]
      = some [assetsDir, str "model.glb"]
    ∧ [assetsDir, str "model.gltf"] ≠ [assetsDir, str "model.glb"] := by decide

/-! ## C4: retirement vs destination write -/

/-- Mesh oracle whose import succeeds but whose export fails. -/
def exportFailOps : MeshFsOps where
  readBytes := fun _ => []
  glbImport := fun _ => some (Except.ok { id := 0 })
  glbExport := fun _ => Except.error "export failed"
  writeBytes := fun _ _ => Except.ok ()

/-- Mesh oracle whose import and export succeed but whose destination
write fails. -/
def writeFailOps : MeshFsOps where
  readBytes := fun _ => []
  glbImport := fun _ => some (Except.ok { id := 0 })
  glbExport := fun _ => Except.ok []
  writeBytes := fun _ _ => Except.error "write failed"

/-- C4 evaluation at the failing input: a mesh work item for
`assets-dev/m.glb` whose glb import succeeds is despawned (retired) even
though the export failed, or even though `fs::write` failed, so in both
runs the item is retired with no destination file written. -/
theorem mesh_retired_without_write :
    ProcessingMesh.runItem exportFailOps
        { source := [assetsDevDir, str "m.glb"], dest := [assetsDir, str "m.glb"],
          queue_time := 0 }
      = MeshOutcome.retired false
    ∧ ProcessingMesh.runItem writeFailOps
        { source := [assetsDevDir, str "m.glb"], dest := [assetsDir, str "m.glb"],
          queue_time := 0 }
      = MeshOutcome.retired false := by decide

/-! ## C5: what an item execution failure does to the process -/

/-- Raw-copy oracle that always fails. -/
def copyFailOps : RawFsOps where
  copy := fun _ _ => Except.error "copy failed"

/-- Raw-copy oracle that always succeeds. -/
def copyOkOps : RawFsOps where
  copy := fun _ _ => Except.ok 42

/-- C5 counterexample: a failed raw copy does not stay fatal for that
item only — `ProcessingRaw::system` panics, which aborts the whole
process, scheduler included. -/
theorem raw_copy_failure_aborts_process :
    ProcessingRaw.runItem copyFailOps
        { source := [assetsDevDir, str "a.png"], dest := [assetsDir, str "a.png"],
          queue_time := 0 }
      = RawOutcome.panicked := by decide

/-- C5 amended: a raw item is retired exactly when its copy succeeds and
the whole process panics on a copy error; a mesh item whose glb import
fails likewise panics the whole process (the `!is_processed` branch).
Item execution failures are process-fatal, not item-fatal. -/
theorem item_failure_fatality_amended :
    (∀ (fsOps : RawFsOps) (entry : FileQueuedForProcessing) (msg : String),
        fsOps.copy entry.source entry.dest = Except.error msg →
        ProcessingRaw.runItem fsOps entry = RawOutcome.panicked)
    ∧ (∀ (fsOps : RawFsOps) (entry : FileQueuedForProcessing) (n : Nat),
        fsOps.copy entry.source entry.dest = Except.ok n →
        ProcessingRaw.runItem fsOps entry = RawOutcome.retired true)
    ∧ (∀ (fsOps : MeshFsOps) (entry : FileQueuedForProcessing) (ext : Str) (msg : String),
        fsExtension entry.source = some ext →
        lowerStr ext = str "glb" →
        fsOps.glbImport (fsOps.readBytes entry.source) = some (Except.error msg) →
        ProcessingMesh.runItem fsOps entry = MeshOutcome.panickedBadFormat) := by
  refine ⟨?_, ?_, ?_⟩
  · intro fsOps entry msg h
    unfold ProcessingRaw.runItem
    rw [h]
  · intro fsOps entry n h
    unfold ProcessingRaw.runItem
    rw [h]
  · intro fsOps entry ext msg h1 h2 h3
    unfold ProcessingMesh.runItem
    rw [h1]
    dsimp only
    rw [h2]
    simp only [if_pos]
    unfold process_gltf_format
    rw [h3]

theorem item_failure_fatality_amended_witness :
    ProcessingRaw.runItem copyOkOps
        { source := [assetsDevDir, str "b.png"], dest := [assetsDir, str "b.png"],
          queue_time := 0 }
      = RawOutcome.retired true :=
  item_failure_fatality_amended.2.1 copyOkOps
    { source := [assetsDevDir, str "b.png"], dest := [assetsDir, str "b.png"],
      queue_time := 0 }
    42 rfl

/-! ## C6: extension routing and first-match-wins -/

theorem raw_matches_iff (ext : Str) (config : Config) :
    ProcessingRaw.matches ext config = true ↔ ext ∈ config.extensions.raw := by
  simp [ProcessingRaw.matches]

theorem mesh_matches_iff (ext : Str) (config : Config) :
    ProcessingMesh.matches ext config = true ↔ ext ∈ config.extensions.mesh := by
  simp [ProcessingMesh.matches]

theorem queue_file_routing (config : Config) (source dest : FsPath) (ext : Str)
    (h : fsExtension source = some ext) :
    queue_file config source dest =
      (if lowerStr ext ∈ config.extensions.raw then some Kind.raw
       else if lowerStr ext ∈ config.extensions.mesh then some Kind.mesh
       else none) := by
  unfold queue_file
  rw [h]
  dsimp only
  by_cases hr : lowerStr ext ∈ config.extensions.raw
  · rw [if_pos ((raw_matches_iff _ _).mpr hr), if_pos hr]
  · rw [if_neg (fun hc => hr ((raw_matches_iff _ _).mp hc)), if_neg hr]
    by_cases hm : lowerStr ext ∈ config.extensions.mesh
    · rw [if_pos ((mesh_matches_iff _ _).mpr hm), if_pos hm]
    · rw [if_neg (fun hc => hm ((mesh_matches_iff _ _).mp hc)), if_neg hm]

theorem queue_file_no_extension (config : Config) (source dest : FsPath)
    (h : fsExtension source = none) :
    queue_file config source dest = none := by
  unfold queue_file
  rw [h]

theorem AssetProcessing.get_destination_append (b : FsPath) :
    AssetProcessing.get_destination ([assetsDevDir] ++ b) = some ([assetsDir] ++ b) := by
  simp [AssetProcessing.get_destination, ProcessingRaw.get_destination, stripPathRoot]

/-- Reduction of `processEntry` on a file entry under the source root
that is not the configuration file, not in flight, and stale: the action
is entirely decided by `queue_file`. -/
theorem processEntry_file_reduction (config : Config) (metaOf : FsPath → Option FileMeta)
    (inFlight : List FsPath) (entry : Entry) (b : FsPath)
    (hdir : entry.isDir = false)
    (hcfg : entry.path ≠ configToml)
    (hroot : stripPathRoot entry.path [assetsDevDir] = some b)
    (hnq : entry.path ∉ inFlight)
    (hstale : is_stale metaOf entry.path ([assetsDir] ++ b) = true) :
    processEntry config metaOf inFlight entry =
      match queue_file config entry.path ([assetsDir] ++ b) with
      | some kind => EntryAction.queueItem kind entry.path ([assetsDir] ++ b)
      | none => EntryAction.unhandledFile entry.path := by
  have hsrc : entry.path = [assetsDevDir] ++ b :=
    stripPathRoot_sound entry.path [assetsDevDir] b hroot
  unfold processEntry
  rw [if_neg hcfg, hroot]
  dsimp only
  rw [AssetProcessing.get_destination_append, ← hsrc]
  dsimp only
  rw [if_neg hnq, hdir]
  rw [if_neg (by simp), if_pos hstale]

theorem check_unhandled_complete (config : Config) (metaOf : FsPath → Option FileMeta)
    (inFlight : List FsPath) :
    ∀ (entries : List Entry) (e : Entry), e ∈ entries →
      ∀ s, processEntry config metaOf inFlight e = EntryAction.unhandledFile s →
      s ∈ (check_for_stale_files config metaOf inFlight entries).unhandled := by
  intro entries
  induction entries with
  | nil =>
    intro e he
    cases he
  | cons e0 rest ih =>
    intro e he s hp
    rcases List.mem_cons.mp he with heq | hmem
    · subst heq
      simp only [check_for_stale_files, hp]
      exact List.mem_cons_self _ _
    · have hrec := ih e hmem s hp
      simp only [check_for_stale_files]
      cases hpe : processEntry config metaOf inFlight e0 <;> simp only [hpe]
      · exact hrec
      · exact hrec
      · exact hrec
      · exact List.mem_cons_of_mem _ hrec

/-- C6: processor kinds are tested in fixed priority order with
first-match-wins: a stale, unclaimed file under the source root whose
lowercased extension is in the configured raw list is tagged raw (even if
the mesh list also holds it); otherwise the mesh list is tried; otherwise
— including files with no extension — the file is not queued and lands in
the unhandled-file report of the tick. -/
theorem extension_routing_first_match (config : Config)
    (metaOf : FsPath → Option FileMeta) (inFlight : List FsPath)
    (entry : Entry) (b : FsPath)
    (hdir : entry.isDir = false)
    (hcfg : entry.path ≠ configToml)
    (hroot : stripPathRoot entry.path [assetsDevDir] = some b)
    (hnq : entry.path ∉ inFlight)
    (hstale : is_stale metaOf entry.path ([assetsDir] ++ b) = true) :
    (∀ ext, fsExtension entry.path = some ext →
      ((lowerStr ext ∈ config.extensions.raw →
          processEntry config metaOf inFlight entry
            = EntryAction.queueItem Kind.raw entry.path ([assetsDir] ++ b))
       ∧ (lowerStr ext ∉ config.extensions.raw →
          lowerStr ext ∈ config.extensions.mesh →
          processEntry config metaOf inFlight entry
            = EntryAction.queueItem Kind.mesh entry.path ([assetsDir] ++ b))
       ∧ (lowerStr ext ∉ config.extensions.raw →
          lowerStr ext ∉ config.extensions.mesh →
          processEntry config metaOf inFlight entry
            = EntryAction.unhandledFile entry.path)))
    ∧ (fsExtension entry.path = none →
        processEntry config metaOf inFlight entry
          = EntryAction.unhandledFile entry.path)
    ∧ (∀ entries, entry ∈ entries →
        processEntry config metaOf inFlight entry = EntryAction.unhandledFile entry.path →
        entry.path ∈ (check_for_stale_files config metaOf inFlight entries).unhandled) := by
  have hred :=
    processEntry_file_reduction config metaOf inFlight entry b hdir hcfg hroot hnq hstale
  refine ⟨?_, ?_, ?_⟩
  · intro ext hext
    refine ⟨?_, ?_, ?_⟩
    · intro hraw
      rw [hred, queue_file_routing config entry.path _ ext hext, if_pos hraw]
    · intro hnraw hmesh
      rw [hred, queue_file_routing config entry.path _ ext hext, if_neg hnraw, if_pos hmesh]
    · intro hnraw hnmesh
      rw [hred, queue_file_routing config entry.path _ ext hext, if_neg hnraw, if_neg hnmesh]
  · intro hext
    rw [hred, queue_file_no_extension config entry.path _ hext]
  · intro entries hmem hunh
    exact check_unhandled_complete config metaOf inFlight entries entry hmem entry.path hunh

/-- A configuration in which `png` is listed for both the raw and the mesh
kind, to exercise first-match-wins. -/
def overlapConfig : Config :=
  { file_watching_rate_seconds := 3 / 10
    extensions := { raw := [str "png"], texture := [], mesh := [str "png"], audio := [] }
    meshes := { use_meshlets := false, storage := MeshStorage.Glb }
    textures := { filter := TextureFilter.Linear } }

theorem extension_routing_first_match_witness :
    processEntry overlapConfig sourceOnlyMeta []
        { path := [assetsDevDir, str "a.PNG"], isDir := false }
      = EntryAction.queueItem Kind.raw [assetsDevDir, str "a.PNG"]
          [assetsDir, str "a.PNG"] :=
  ((extension_routing_first_match overlapConfig sourceOnlyMeta []
      { path := [assetsDevDir, str "a.PNG"], isDir := false } [str "a.PNG"]
      rfl (by decide) (by decide) (by decide) (by decide)).1
    (str "PNG") (by decide)).1 (by decide)

/-! ## C7: case-insensitivity of extension matching -/

theorem asciiLower_not_upper (c : Nat) :
    ¬(65 ≤ asciiLower c ∧ asciiLower c ≤ 90) := by
  simp only [asciiLower]
  split_ifs <;> omega

/-- Configuration whose raw list holds the uppercase entry `PNG`. -/
def upperPNGConfig : Config :=
  { file_watching_rate_seconds := 3 / 10
    extensions := { raw := [str "PNG"], texture := [], mesh := [], audio := [] }
    meshes := { use_meshlets := false, storage := MeshStorage.Glb }
    textures := { filter := TextureFilter.Linear } }

/-- C7 counterexample: the claim says a configured entry `PNG` matches a
file named `a.png`.  In the code only the file's extension is lowercased
(to `png`) and then compared verbatim against the configured entries, so
the raw matches test rejects it and the file is not queued at all. -/
theorem upper_entry_rejects_lower_file :
    ProcessingRaw.matches (str "png") upperPNGConfig = false
    ∧ queue_file upperPNGConfig [assetsDevDir, str "a.png"]
        [assetsDir, str "a.png"] = none := by decide

/-- C7 amended: extension matching is case-insensitive on the file side
only — the file's extension is ASCII-lowercased before the comparison, so
a lowercase configured entry accepts every case variant of a file
extension; configured entries themselves are compared verbatim, and an
entry containing an ASCII uppercase letter can never equal a lowercased
file extension, hence matches no file at all. -/
theorem extension_case_insensitive_amended :
    (∀ (config : Config) (source dest : FsPath) (ext : Str),
        fsExtension source = some ext →
        lowerStr ext ∈ config.extensions.raw →
        queue_file config source dest = some Kind.raw)
    ∧ (∀ (config : Config) (source dest : FsPath) (ext : Str),
        fsExtension source = some ext →
        queue_file config source dest ≠ none →
        lowerStr ext ∈ config.extensions.raw ∨ lowerStr ext ∈ config.extensions.mesh)
    ∧ (∀ entry : Str, (∃ c ∈ entry, 65 ≤ c ∧ c ≤ 90) →
        ∀ ext : Str, lowerStr ext ≠ entry) := by
  refine ⟨?_, ?_, ?_⟩
  · intro config source dest ext hext hraw
    rw [queue_file_routing config source dest ext hext, if_pos hraw]
  · intro config source dest ext hext hne
    rw [queue_file_routing config source dest ext hext] at hne
    by_cases hr : lowerStr ext ∈ config.extensions.raw
    · exact Or.inl hr
    · by_cases hm : lowerStr ext ∈ config.extensions.mesh
      · exact Or.inr hm
      · rw [if_neg hr, if_neg hm] at hne
        exact absurd rfl hne
  · intro entry hex ext heq
    obtain ⟨c, hc, h65, h90⟩ := hex
    rw [← heq] at hc
    obtain ⟨a, _, ha⟩ := List.mem_map.mp hc
    rw [← ha] at h65 h90
    exact asciiLower_not_upper a ⟨h65, h90⟩

theorem extension_case_insensitive_amended_witness :
    queue_file pngRawConfig [assetsDevDir, str "A.PNG"]
      [assetsDir, str "A.PNG"] = some Kind.raw :=
  extension_case_insensitive_amended.1 pngRawConfig
    [assetsDevDir, str "A.PNG"] [assetsDir, str "A.PNG"] (str "PNG")
    (by decide) (by decide)

/-! ## C8: idempotence of the scan -/

theorem AssetProcessing.get_destination_inv (source d : FsPath)
    (h : AssetProcessing.get_destination source = some d) :
    ∃ b, stripPathRoot source [assetsDevDir] = some b ∧ d = [assetsDir] ++ b := by
  unfold AssetProcessing.get_destination ProcessingRaw.get_destination at h
  split at h
  · rename_i hsplit
    split at hsplit
    · cases hsplit
    · rename_i b hb
      cases hsplit
      cases h
      exact ⟨b, hb, rfl⟩
  · cases h

theorem is_stale_false_of_fresh (metaOf : FsPath → Option FileMeta)
    (source dest : FsPath) (ms md : FileMeta) (ts td : Nat)
    (hms : metaOf source = some ms) (hmd : metaOf dest = some md)
    (hcs : compTime ms = some ts) (hcd : compTime md = some td) (hle : ts ≤ td) :
    is_stale metaOf source dest = false := by
  unfold is_stale
  rw [hms, hmd]
  dsimp only
  rw [hcs, hcd]
  simp only [decide_eq_false_iff_not, not_lt]
  omega

/-- C8: once every file that some kind would claim has a destination whose
comparison time is at least the source's — the state a fully successful
scan-and-process cycle leaves behind — a further scan with the in-flight
set drained queues zero new items. -/
theorem second_scan_queues_nothing (config : Config)
    (metaOf : FsPath → Option FileMeta) (entries : List Entry)
    (h : ∀ e ∈ entries, e.isDir = false → e.path ≠ configToml →
         ∀ b, stripPathRoot e.path [assetsDevDir] = some b →
         queue_file config e.path ([assetsDir] ++ b) ≠ none →
         ∃ ms md ts td, metaOf e.path = some ms ∧ metaOf ([assetsDir] ++ b) = some md ∧
           compTime ms = some ts ∧ compTime md = some td ∧ ts ≤ td) :
    (check_for_stale_files config metaOf [] entries).queued = [] := by
  induction entries with
  | nil => rfl
  | cons e rest ih =>
    have hrest := fun e' he' => h e' (List.mem_cons_of_mem _ he')
    simp only [check_for_stale_files]
    cases hpe : processEntry config metaOf [] e <;> simp only [hpe]
    · exact ih hrest
    · exact ih hrest
    · exfalso
      rename_i k s d
      obtain ⟨hsrc, hnin, hne, hdirF, hdest, hstale, hq⟩ :=
        processEntry_queueItem_inv config metaOf [] e k s d hpe
      obtain ⟨b, hroot, hd⟩ := AssetProcessing.get_destination_inv s d hdest
      subst hsrc
      subst hd
      obtain ⟨ms, md, ts, td, hms, hmd, hcs, hcd, hle⟩ :=
        h e (List.mem_cons_self _ _) hdirF hne b hroot (by rw [hq]; simp)
      have hfalse :=
        is_stale_false_of_fresh metaOf e.path ([assetsDir] ++ b) ms md ts td
          hms hmd hcs hcd hle
      rw [hstale] at hfalse
      cases hfalse
    · exact ih hrest

/-- Metadata after a successful cycle: the destination of `a.png` exists
and is no older than its source. -/
def freshMeta : FsPath → Option FileMeta := fun p =>
  if p = [assetsDevDir, str "a.png"] then some { modified := some 3, accessed := none }
  else if p = [assetsDir, str "a.png"] then some { modified := some 5, accessed := none }
  else none

theorem second_scan_queues_nothing_witness :
    (check_for_stale_files pngRawConfig freshMeta []
        [{ path := [assetsDevDir, str "a.png"], isDir := false }]).queued = [] :=
  second_scan_queues_nothing pngRawConfig freshMeta
    [{ path := [assetsDevDir, str "a.png"], isDir := false }]
    (by
      intro e he hdir hne b hroot hq
      simp only [List.mem_singleton] at he
      subst he
      have hev : stripPathRoot [assetsDevDir, str "a.png"] [assetsDevDir]
          = some [str "a.png"] := by decide
      rw [hev] at hroot
      have hb := (Option.some.inj hroot).symm
      subst hb
      exact ⟨{ modified := some 3, accessed := none },
        { modified := some 5, accessed := none }, 3, 5,
        by decide, by decide, by decide, by decide, by omega⟩)

/-! ## C9: the configuration file is excluded from every scan -/

/-- C9: the well-known configuration file `assets-dev/config.toml` is
skipped outright by the per-entry loop (whether walked as file or
directory), no tick ever queues a work item whose source is the
configuration file, and it never appears in the unhandled-file report —
so it is never staleness-tested, classified, queued, or written. -/
theorem config_file_excluded (config : Config) (metaOf : FsPath → Option FileMeta)
    (inFlight : List FsPath) (entries : List Entry) :
    (∀ isDir, processEntry config metaOf inFlight { path := configToml, isDir := isDir }
        = EntryAction.skip)
    ∧ (∀ k s d, (k, s, d) ∈ (check_for_stale_files config metaOf inFlight entries).queued →
        s ≠ configToml)
    ∧ configToml ∉ (check_for_stale_files config metaOf inFlight entries).unhandled := by
  refine ⟨?_, ?_, ?_⟩
  · intro isDir
    unfold processEntry
    rw [if_pos rfl]
  · intro k s d hmem
    obtain ⟨e, _, hp⟩ := check_mem_queued config metaOf inFlight entries k s d hmem
    exact (processEntry_queueItem_inv config metaOf inFlight e k s d hp).2.2.1
  · intro hmem
    obtain ⟨e, _, hp⟩ := check_mem_unhandled config metaOf inFlight entries configToml hmem
    exact (processEntry_unhandled_inv config metaOf inFlight e configToml hp).2.1 rfl

theorem config_file_excluded_witness :
    processEntry Config.default freshMeta [] { path := configToml, isDir := false }
      = EntryAction.skip :=
  (config_file_excluded Config.default freshMeta [] []).1 false

/-! ## C10: gltf/glxf mesh items hit the unimplemented branch -/

/-- C10: a queued mesh work item whose lowercased source extension is
`gltf` or `glxf` drives `process_gltf_format` into a `todo!()` branch —
a process-aborting panic — and `gltf` sits in the default mesh extension
list, so a default-configured pipeline queues `assets-dev/model.gltf` for
the mesh kind and then crashes on it. -/
theorem gltf_mesh_item_hits_todo (fsOps : MeshFsOps)
    (entry : FileQueuedForProcessing) (ext : Str)
    (h1 : fsExtension entry.source = some ext)
    (h2 : lowerStr ext = str "gltf" ∨ lowerStr ext = str "glxf") :
    ProcessingMesh.runItem fsOps entry = MeshOutcome.panickedTodo
    ∧ str "gltf" ∈ Config.default.extensions.mesh
    ∧ queue_file Config.default [assetsDevDir, str "model.gltf"]
        [assetsDir, str "model.gltf"] = some Kind.mesh := by
  refine ⟨?_, by decide, by decide⟩
  unfold ProcessingMesh.runItem
  rw [h1]
  dsimp only
  rcases h2 with h2 | h2
  · rw [h2, if_neg (by decide), if_pos rfl]
    rfl
  · rw [h2, if_neg (by decide), if_neg (by decide), if_pos rfl]
    rfl

/-- A mesh oracle that is never consulted on the todo paths. -/
def idleMeshOps : MeshFsOps where
  readBytes := fun _ => []
  glbImport := fun _ => none
  glbExport := fun _ => Except.error "unused"
  writeBytes := fun _ _ => Except.ok ()

theorem gltf_mesh_item_hits_todo_witness :
    ProcessingMesh.runItem idleMeshOps
        { source := [assetsDevDir, str "model.gltf"],
          dest := [assetsDir, str "model.gltf"], queue_time := 0 }
      = MeshOutcome.panickedTodo :=
  (gltf_mesh_item_hits_todo idleMeshOps
      { source := [assetsDevDir, str "model.gltf"],
        dest := [assetsDir, str "model.gltf"], queue_time := 0 }
      (str "gltf") (by decide) (Or.inl (by decide))).1
